import Mathlib

/-!
Shallow embedding of the mev-bot-system repository's core components:
strategy selection (`src/bot/strategy_manager.py`), nonce sequencing
(`src/blockchain/nonce_manager.py`), RPC tier failover
(`src/utils/rpc_manager.py`), the kill switch (`src/utils/kill_switch.py`),
multicall batching (`src/utils/multicall.py`), the data cache
(`src/utils/data_cache.py`) and the tip optimizer (`src/ml/tip_optimizer.py`).

USD amounts, gwei values and wall-clock times are modelled as rationals,
day indices and nonces as naturals.  Python's stable in-place `list.sort`
is modelled with `List.insertionSort`, which is stable and therefore
produces the same list.
-/

/-! ### Strategy manager (`src/bot/strategy_manager.py`) -/

/-- An opportunity dict as consumed by `StrategyManager.select_best_opportunity`:
the fields the selection logic reads. -/
structure Opportunity where
  strategy : String
  expected_profit_usd : ℚ
  confidence : ℚ
deriving DecidableEq, Repr

/-- Embeds `StrategyManager.priority_map` with the dict-lookup default `0`
(`self.priority_map.get(x['strategy'], 0)`). -/
def priority_map (s : String) : ℕ :=
  if s = "sandwich_attack" then 5
  else if s = "flashloan_arbitrage" then 4
  else if s = "liquidation_arbitrage" then 4
  else if s = "triangular_arbitrage" then 3
  else if s = "direct_arbitrage" then 2
  else 0

/-- Descending-profit order used by
`confident_opps.sort(key=lambda x: x['expected_profit_usd'], reverse=True)`. -/
def profitGe (a b : Opportunity) : Prop :=
  b.expected_profit_usd ≤ a.expected_profit_usd

instance : DecidableRel profitGe := fun a b =>
  inferInstanceAs (Decidable (b.expected_profit_usd ≤ a.expected_profit_usd))

instance : IsTotal Opportunity profitGe :=
  ⟨fun a b => le_total b.expected_profit_usd a.expected_profit_usd⟩

instance : IsTrans Opportunity profitGe :=
  ⟨fun _ _ _ h1 h2 => le_trans h2 h1⟩

/-- Descending-priority order used by
`similar_opps.sort(key=lambda x: self.priority_map.get(x['strategy'], 0), reverse=True)`. -/
def prioGe (a b : Opportunity) : Prop :=
  priority_map b.strategy ≤ priority_map a.strategy

instance : DecidableRel prioGe := fun a b =>
  inferInstanceAs (Decidable (priority_map b.strategy ≤ priority_map a.strategy))

instance : IsTotal Opportunity prioGe :=
  ⟨fun a b => le_total (priority_map b.strategy) (priority_map a.strategy)⟩

instance : IsTrans Opportunity prioGe :=
  ⟨fun _ _ _ h1 h2 => le_trans h2 h1⟩

/-- The confidence-filtered candidates sorted by expected profit descending:
steps `valid_opps`, `confident_opps` and the profit sort of
`select_best_opportunity`. -/
def sortedConfident (min_confidence : ℚ) (opportunities : List (Option Opportunity)) :
    List Opportunity :=
  ((opportunities.filterMap id).filter
      (fun o => min_confidence ≤ o.confidence)).insertionSort profitGe

/-- The `similar_opps` subset: candidates whose expected profit is within the
fixed `$2` band of the top candidate's profit (empty when no candidate passed
the confidence filter). -/
def bandOf (min_confidence : ℚ) (opportunities : List (Option Opportunity)) :
    List Opportunity :=
  match sortedConfident min_confidence opportunities with
  | [] => []
  | top :: rest =>
      (top :: rest).filter
        (fun o => |o.expected_profit_usd - top.expected_profit_usd| ≤ 2)

/-- Embeds `StrategyManager.select_best_opportunity`. -/
def select_best_opportunity (min_confidence : ℚ)
    (opportunities : List (Option Opportunity)) : Option Opportunity :=
  match sortedConfident min_confidence opportunities with
  | [] => none
  | top :: rest =>
      let similar := (top :: rest).filter
        (fun o => |o.expected_profit_usd - top.expected_profit_usd| ≤ 2)
      if 1 < similar.length then
        (similar.insertionSort prioGe).head?
      else
        some top

/-! ### Nonce manager (`src/blockchain/nonce_manager.py`) -/

/-- The mutable state of `NonceManager`: `current_nonce` and the
`pending_nonces` set. -/
structure NonceState where
  current_nonce : ℕ
  pending_nonces : Finset ℕ
deriving DecidableEq

/-- Embeds `NonceManager.get_nonce`: returns the current nonce, increments the
counter and records the issued nonce as pending. -/
def get_nonce (s : NonceState) : ℕ × NonceState :=
  (s.current_nonce,
   { current_nonce := s.current_nonce + 1,
     pending_nonces := insert s.current_nonce s.pending_nonces })

/-- Embeds `NonceManager.confirm_nonce`: discards a confirmed nonce from the
pending set. -/
def confirm_nonce (nonce : ℕ) (s : NonceState) : NonceState :=
  { s with pending_nonces := s.pending_nonces.erase nonce }

/-- Embeds `NonceManager.reset_nonce`: resyncs the counter from the chain and
clears the pending set. -/
def reset_nonce (chain_nonce : ℕ) (_s : NonceState) : NonceState :=
  { current_nonce := chain_nonce, pending_nonces := ∅ }

/-- Embeds `N` consecutive completed `get_nonce` calls: the list of issued nonces
and the final state. -/
def get_nonces : ℕ → NonceState → List ℕ × NonceState
  | 0, s => ([], s)
  | n + 1, s =>
      let p := get_nonce s
      let q := get_nonces n p.2
      (p.1 :: q.1, q.2)

/-! ### Kill switch (`src/utils/kill_switch.py`) -/

/-- The state of `KillSwitch`: risk-management configuration plus the
trigger flags and the daily counters.  The coarse wall-clock day index and
the current time are passed to the operations explicitly. -/
structure KillSwitchState where
  max_daily_loss_usd : ℚ
  max_failed_tx : ℕ
  auto_kill_enabled : Bool
  triggered : Bool
  trigger_reason : Option String
  trigger_time : Option ℚ
  daily_loss : ℚ
  failed_tx_count : ℕ
  last_reset_day : ℕ
deriving DecidableEq

/-- Embeds `KillSwitch._reset_daily_counters`: on a day-index advance, zero the two
daily counters and store the new day. -/
def reset_daily_counters (current_day : ℕ) (s : KillSwitchState) : KillSwitchState :=
  if s.last_reset_day < current_day then
    { s with daily_loss := 0, failed_tx_count := 0, last_reset_day := current_day }
  else s

/-- Embeds `KillSwitch.trigger`: sets the triggered flag, reason and time — a no-op
when already triggered or when the auto kill switch is disabled in config. -/
def trigger (reason : String) (now : ℚ) (s : KillSwitchState) : KillSwitchState :=
  if s.triggered then s
  else if s.auto_kill_enabled = false then s
  else { s with triggered := true, trigger_reason := some reason,
                trigger_time := some now }

/-- Embeds `KillSwitch.record_loss`: roll the day if needed, add the absolute value
of the loss, and trigger when the daily ceiling is reached. -/
def record_loss (loss_usd : ℚ) (current_day : ℕ) (now : ℚ) (s : KillSwitchState) :
    KillSwitchState :=
  let s1 := reset_daily_counters current_day s
  let s2 := { s1 with daily_loss := s1.daily_loss + |loss_usd| }
  if s2.max_daily_loss_usd ≤ s2.daily_loss then
    trigger "Daily loss limit exceeded" now s2
  else s2

/-- Embeds `KillSwitch.record_failed_transaction`: roll the day if needed and count
the failure; reaching the failure limit only alerts, it never triggers. -/
def record_failed_transaction (current_day : ℕ) (s : KillSwitchState) :
    KillSwitchState :=
  let s1 := reset_daily_counters current_day s
  { s1 with failed_tx_count := s1.failed_tx_count + 1 }

/-- Embeds `KillSwitch.reset`: the explicit manual reset. -/
def kill_switch_reset (s : KillSwitchState) : KillSwitchState :=
  { s with triggered := false, trigger_reason := none, trigger_time := none }

/-- Embeds `KillSwitch.manual_trigger`: delegates to `trigger`. -/
def manual_trigger (reason : String) (now : ℚ) (s : KillSwitchState) :
    KillSwitchState :=
  trigger reason now s

/-! ### RPC manager (`src/utils/rpc_manager.py`) -/

/-- Outcome of one provider request attempt on one tier, as classified by
`make_call`'s except-branch (`429` / `rate limit` / `too many requests`
versus any other exception). -/
inductive CallOutcome where
  | success (result : ℤ)
  | rateLimited
  | otherError
deriving DecidableEq, Repr

/-- How `make_call` ends: a result, the re-raise after
`"All RPC tiers exhausted!"`, the re-raise of a non-rate-limit error on the
last attempt, or the `return None` after the retry loop runs out. -/
inductive MakeCallResult where
  | ok (result : ℤ)
  | exhausted
  | errorRaised
  | noneResult
deriving DecidableEq, Repr

/-- Embeds `RPCManager._get_next_tier`: position of the current tier in the
configured fallback sequence, the element after it if any, and the
`ValueError` default `tier_1` when the tier is not in the sequence. -/
def get_next_tier (fallback_sequence : List String) (current_tier : String) :
    Option String :=
  match fallback_sequence.findIdx? (· == current_tier) with
  | some i =>
      if i + 1 < fallback_sequence.length then fallback_sequence[i + 1]?
      else none
  | none => some "tier_1"

/-- The retry loop of `RPCManager.make_call`.  `remaining` is the number of
attempts left out of `max_retries = 3`, `attempt` the index of the current
attempt, `tier_name` the tier the next request goes to, and `current_tier`
the manager's tier pointer.  The oracle `outcome` gives the provider's
behaviour per tier and attempt.  Returns the result together with the final
tier pointer. -/
def make_call_go (seq : List String) (outcome : String → ℕ → CallOutcome) :
    ℕ → ℕ → String → String → MakeCallResult × String
  | 0, _, _, current_tier => (.noneResult, current_tier)
  | remaining + 1, attempt, tier_name, current_tier =>
      match outcome tier_name attempt with
      | .success v => (.ok v, current_tier)
      | .rateLimited =>
          match get_next_tier seq tier_name with
          | some next_tier =>
              make_call_go seq outcome remaining (attempt + 1) next_tier next_tier
          | none => (.exhausted, current_tier)
      | .otherError =>
          if remaining = 0 then (.errorRaised, current_tier)
          else make_call_go seq outcome remaining (attempt + 1) tier_name current_tier

/-- Embeds `RPCManager.make_call`: starts the three-attempt loop on the requested
tier (defaulting to the manager's current tier). -/
def make_call (seq : List String) (outcome : String → ℕ → CallOutcome)
    (tier : Option String) (current_tier : String) : MakeCallResult × String :=
  make_call_go seq outcome 3 0 (tier.getD current_tier) current_tier

/-! ### Multicall (`src/utils/multicall.py`) -/

/-- One entry of the `calls` argument to `Multicall.aggregate`:
a target address and encoded call data (bytes as a list of byte values). -/
structure MCall where
  target : String
  call_data : List ℕ
deriving DecidableEq, Repr

/-- One entry of the list returned by the `aggregate3` contract call:
a success flag and the raw return bytes. -/
structure MCallResult where
  success : Bool
  returnData : List ℕ
deriving DecidableEq, Repr

/-- The per-entry decoding step of `Multicall._execute_chunk`:
`if success and return_data: append(return_data) else append(None)`. -/
def decode_result (r : MCallResult) : Option (List ℕ) :=
  if r.success = true ∧ r.returnData ≠ [] then some r.returnData else none

/-- Embeds `Multicall._execute_chunk` on the happy path: the `aggregate3` contract
returns one `MCallResult` per call, in call order (`resp` is the chain's
per-call response), and each is decoded. -/
def execute_chunk (resp : MCall → MCallResult) (calls : List MCall) :
    List (Option (List ℕ)) :=
  calls.map (fun c => decode_result (resp c))

/-- The chunking `[calls[i:i+chunk_size] for i in range(0, len(calls), chunk_size)]`
(for `chunk_size ≥ 1`). -/
def chunksOf (n : ℕ) : List MCall → List (List MCall)
  | [] => []
  | x :: xs => (x :: xs.take (n - 1)) :: chunksOf n (xs.drop (n - 1))
termination_by l => l.length
decreasing_by simp [List.length_drop]; omega

/-- Embeds `Multicall.aggregate`: empty input short-circuits, otherwise the calls
are chunked, each chunk executed, and the chunk results concatenated in
order. -/
def aggregate (chunk_size : ℕ) (resp : MCall → MCallResult)
    (calls : List MCall) : List (Option (List ℕ)) :=
  if calls = [] then []
  else ((chunksOf chunk_size calls).map (execute_chunk resp)).flatten

/-! ### Data cache (`src/utils/data_cache.py`) -/

/-- One row of the SQLite `cache` table: value (JSON text abstracted as an
integer), insertion timestamp and time-to-live in seconds. -/
structure CacheEntry where
  value : ℤ
  timestamp : ℚ
  ttl : ℕ
deriving DecidableEq

/-- The `cache` table: at most one row per key. -/
def CacheStore : Type := String → Option CacheEntry

/-- Embeds `DataCache.set`: `INSERT OR REPLACE` of the row for `key`, stamped with
the current time. -/
def cache_set (store : CacheStore) (key : String) (v : ℤ) (ttl : ℕ) (now : ℚ) :
    CacheStore :=
  fun k => if k = key then some ⟨v, now, ttl⟩ else store k

/-- Embeds `DataCache.delete`: removes the row for `key`. -/
def cache_delete (store : CacheStore) (key : String) : CacheStore :=
  fun k => if k = key then none else store k

/-- Embeds `DataCache.get`: a missing row yields `none`; a row whose age exceeds
its ttl is deleted lazily and yields `none`; otherwise the value is
returned.  Returns the read result together with the store after the lazy
deletion. -/
def cache_get (store : CacheStore) (key : String) (now : ℚ) :
    Option ℤ × CacheStore :=
  match store key with
  | none => (none, store)
  | some e =>
      if (e.ttl : ℚ) < now - e.timestamp then (none, cache_delete store key)
      else (some e.value, store)

/-! ### Tip optimizer (`src/ml/tip_optimizer.py`) -/

/-- The tip constraints read from `config['mev_boost']`. -/
structure TipConfig where
  min_tip_gwei : ℚ
  max_tip_gwei : ℚ
deriving DecidableEq

/-- The fields of the opportunity dict read by `calculate_optimal_tip`;
`victim_gas_price_gwei` is optional (`opportunity['data'].get(..., 50)`). -/
structure TipOpportunity where
  expected_profit_usd : ℚ
  strategy : String
  victim_gas_price_gwei : Option ℚ
deriving DecidableEq

/-- The profit-derived tip cap
`max_acceptable_tip_gwei = (expected_profit_usd * 0.10) / 0.0000008`. -/
def max_acceptable_tip_gwei (opp : TipOpportunity) : ℚ :=
  (opp.expected_profit_usd * (1 / 10)) / (8 / 10000000)

/-- Python's `int()` conversion: truncation toward zero. -/
def pyInt (q : ℚ) : ℤ :=
  if 0 ≤ q then ⌊q⌋ else ⌈q⌉

/-- The rule-based tip before the final clamps: base tip, the 12.5%
beat-the-victim step for sandwich attacks, the high-profit scaling, and
the optional ML blend.  `history_len` is `len(self.tip_history)` and
`ml_tip` the value of `_ml_predict_tip` (an oracle here; the model is
always non-`None` in the constructor). -/
def rule_tip_gwei (cfg : TipConfig) (history_len : ℕ) (ml_tip : ℚ)
    (opp : TipOpportunity) : ℚ :=
  let base_tip := cfg.min_tip_gwei
  let t1 :=
    if opp.strategy = "sandwich_attack" then
      max base_tip ((opp.victim_gas_price_gwei.getD 50) * (1125 / 1000))
    else base_tip
  let t2 :=
    if 50 < opp.expected_profit_usd then t1 * (15 / 10)
    else if 100 < opp.expected_profit_usd then t1 * 2
    else t1
  if 10 < history_len ∧ 0 < ml_tip then t2 * (6 / 10) + ml_tip * (4 / 10)
  else t2

/-- The gwei value computed by `TipOptimizer.calculate_optimal_tip` before
the final wei conversion: the rule-based tip clamped to
`[min_tip, max_tip]` and then capped at 10% of expected profit. -/
def calculate_optimal_tip_gwei (cfg : TipConfig) (history_len : ℕ) (ml_tip : ℚ)
    (opp : TipOpportunity) : ℚ :=
  min (max cfg.min_tip_gwei
    (min (rule_tip_gwei cfg history_len ml_tip opp) cfg.max_tip_gwei))
    (max_acceptable_tip_gwei opp)

/-- Embeds `TipOptimizer.calculate_optimal_tip`: the tip in wei,
`int(optimal_tip_gwei * 1e9)`. -/
def calculate_optimal_tip (cfg : TipConfig) (history_len : ℕ) (ml_tip : ℚ)
    (opp : TipOpportunity) : ℤ :=
  pyInt (calculate_optimal_tip_gwei cfg history_len ml_tip opp * 1000000000)

/-! ## Theorems -/

/-! ### Strategy manager: confidence filter and banded priority tie-break -/

/-- Every member of the sorted confidence-filtered list passed the filter. -/
theorem mem_sortedConfident_confidence {minc : ℚ} {opps : List (Option Opportunity)}
    {o : Opportunity} (h : o ∈ sortedConfident minc opps) : minc ≤ o.confidence := by
  rw [sortedConfident, List.mem_insertionSort, List.mem_filter] at h
  exact of_decide_eq_true h.2

/-- Every winner returned by the selection is a member of the sorted
confidence-filtered list. -/
theorem select_mem_sortedConfident {minc : ℚ} {opps : List (Option Opportunity)}
    {w : Opportunity} (hw : select_best_opportunity minc opps = some w) :
    w ∈ sortedConfident minc opps := by
  rw [select_best_opportunity] at hw
  cases hs : sortedConfident minc opps with
  | nil => rw [hs] at hw; exact absurd hw (by simp)
  | cons top rest =>
      rw [hs] at hw
      simp only at hw
      split at hw
      · have hmem : w ∈ ((top :: rest).filter
            (fun o => |o.expected_profit_usd - top.expected_profit_usd| ≤ 2)).insertionSort
              prioGe := by
          cases hh : ((top :: rest).filter
              (fun o => |o.expected_profit_usd - top.expected_profit_usd| ≤ 2)).insertionSort
                prioGe with
          | nil => rw [hh] at hw; exact absurd hw (by simp)
          | cons a l =>
              rw [hh] at hw
              simp only [List.head?] at hw
              exact (Option.some_inj.mp hw) ▸ List.mem_cons_self a l
        rw [List.mem_insertionSort, List.mem_filter] at hmem
        exact hmem.1
      · exact (Option.some_inj.mp hw) ▸ List.mem_cons_self top rest

/-- C5: an opportunity whose confidence is strictly below `min_confidence`
is never the selected winner, and when every candidate is below the
threshold (in particular when there are no candidates) the scheduler
selects nothing. -/
theorem select_confidence_filter (minc : ℚ) (opps : List (Option Opportunity)) :
    (∀ w, select_best_opportunity minc opps = some w → minc ≤ w.confidence) ∧
    ((∀ o ∈ opps.filterMap id, o.confidence < minc) →
      select_best_opportunity minc opps = none) := by
  constructor
  · intro w hw
    exact mem_sortedConfident_confidence (select_mem_sortedConfident hw)
  · intro hall
    have hfil : (opps.filterMap id).filter (fun o => minc ≤ o.confidence) = [] := by
      rw [List.filter_eq_nil_iff]
      intro o ho
      simpa using not_le.mpr (hall o ho)
    rw [select_best_opportunity, sortedConfident, hfil]
    rfl

/-- Concrete run of C5: a single candidate below the threshold is never
selected, and the cycle selects nothing. -/
theorem select_confidence_filter_witness :
    ((⟨"direct_arbitrage", 40, mkRat 1 2⟩ : Opportunity).confidence < mkRat 3 4) ∧
    select_best_opportunity (mkRat 3 4)
      [some ⟨"direct_arbitrage", 40, mkRat 1 2⟩] = none := by
  refine ⟨by decide, ?_⟩
  exact (select_confidence_filter (mkRat 3 4)
    [some ⟨"direct_arbitrage", 40, mkRat 1 2⟩]).2 (by decide)

/-- C1: when more than one confidence-passing candidate has expected profit
within the fixed `$2` band of the top candidate's profit, the selected
winner is a member of that band with the highest fixed strategy priority,
and every confidence-passing candidate's profit exceeds the winner's by at
most `$2` (profit-descending ranking with the `$2`-band priority
tie-break). -/
theorem select_band_priority (minc : ℚ) (opps : List (Option Opportunity))
    (w : Opportunity) (hw : select_best_opportunity minc opps = some w)
    (hband : 1 < (bandOf minc opps).length) :
    w ∈ bandOf minc opps ∧
    (∀ o ∈ bandOf minc opps, priority_map o.strategy ≤ priority_map w.strategy) ∧
    (∀ o ∈ sortedConfident minc opps,
      o.expected_profit_usd ≤ w.expected_profit_usd + 2) := by
  rw [select_best_opportunity] at hw
  rw [bandOf] at hband ⊢
  cases hs : sortedConfident minc opps with
  | nil =>
      rw [hs] at hband
      simp at hband
  | cons top rest =>
      rw [hs] at hw hband
      simp only at hw hband
      rw [if_pos hband] at hw
      set similar := (top :: rest).filter
        (fun o => |o.expected_profit_usd - top.expected_profit_usd| ≤ 2) with hsim
      have hsorted : List.Sorted prioGe (similar.insertionSort prioGe) :=
        List.sorted_insertionSort prioGe similar
      cases hh : similar.insertionSort prioGe with
      | nil => rw [hh] at hw; exact absurd hw (by simp)
      | cons a l =>
          rw [hh] at hw hsorted
          simp only [List.head?] at hw
          have haw : a = w := Option.some_inj.mp hw
          subst haw
          have hmem : a ∈ similar := by
            rw [← List.mem_insertionSort (r := prioGe), hh]
            exact List.mem_cons_self a l
          refine ⟨hmem, ?_, ?_⟩
          · intro o ho
            have : o ∈ a :: l := by
              rw [← hh, List.mem_insertionSort]
              exact ho
            rcases List.mem_cons.mp this with h | h
            · exact le_of_eq (by rw [h])
            · exact List.rel_of_sorted_cons hsorted o h
          · intro o ho
            -- top has the maximal profit among the sorted confident list
            have hsortedP : List.Sorted profitGe (top :: rest) := by
              rw [← hs, sortedConfident]
              exact List.sorted_insertionSort profitGe _
            have htop : o.expected_profit_usd ≤ top.expected_profit_usd := by
              rcases List.mem_cons.mp ho with h | h
              · exact le_of_eq (by rw [h])
              · exact List.rel_of_sorted_cons hsortedP o h
            have hband2 : |a.expected_profit_usd - top.expected_profit_usd| ≤ 2 := by
              have := (List.mem_filter.mp hmem).2
              exact of_decide_eq_true this
            have : top.expected_profit_usd - a.expected_profit_usd ≤ 2 := by
              rw [abs_sub_comm] at hband2
              exact le_trans (le_abs_self _) hband2
            linarith

/-- Candidate `A(profit=50, conf=0.8, prio=5)` from the ranking-determinism
example. -/
def oppA : Opportunity := ⟨"sandwich_attack", 50, 8/10⟩

/-- Candidate `B(profit=51, conf=0.9, prio=2)` from the ranking-determinism
example. -/
def oppB : Opportunity := ⟨"direct_arbitrage", 51, 9/10⟩

/-- Concrete run of C1: with `A(50, 0.8, prio 5)`, `B(51, 0.9, prio 2)` and
`min_confidence = 0.75`, both candidates are in the `$2` band and `A` is
selected by the priority tie-break despite its lower raw profit. -/
theorem select_band_priority_witness :
    select_best_opportunity (3/4) [some oppA, some oppB] = some oppA ∧
    oppA ∈ bandOf (3/4) [some oppA, some oppB] ∧
    priority_map oppB.strategy ≤ priority_map oppA.strategy := by
  have hsel : select_best_opportunity (3/4) [some oppA, some oppB] = some oppA := by
    norm_num [select_best_opportunity, sortedConfident, List.insertionSort,
      List.orderedInsert, profitGe, prioGe, priority_map, oppA, oppB,
      List.filterMap, List.filter]
    rfl
  have hband : 1 < (bandOf (3/4) [some oppA, some oppB]).length := by
    norm_num [bandOf, sortedConfident, List.insertionSort, List.orderedInsert,
      profitGe, oppA, oppB, List.filterMap, List.filter]
  have hmemB : oppB ∈ bandOf (3/4) [some oppA, some oppB] := by
    norm_num [bandOf, sortedConfident, List.insertionSort, List.orderedInsert,
      profitGe, oppA, oppB, List.filterMap, List.filter]
  have h := select_band_priority (3/4) [some oppA, some oppB] oppA hsel hband
  exact ⟨hsel, h.1, h.2.1 oppB hmemB⟩

/-! ### Nonce manager: sequential allocation -/

/-- Induction workhorse for `get_nonces`: the issued list, the final counter
and the final pending set of `N` consecutive allocations. -/
theorem get_nonces_spec (N : ℕ) : ∀ s : NonceState,
    (get_nonces N s).1 = List.range' s.current_nonce N ∧
    (get_nonces N s).2.current_nonce = s.current_nonce + N ∧
    (get_nonces N s).2.pending_nonces =
      s.pending_nonces ∪ (List.range' s.current_nonce N).toFinset := by
  induction N with
  | zero => intro s; simp [get_nonces]
  | succ n ih =>
      intro s
      obtain ⟨h1, h2, h3⟩ := ih (get_nonce s).2
      refine ⟨?_, ?_, ?_⟩
      · show (get_nonce s).1 :: (get_nonces n (get_nonce s).2).1 = _
        rw [h1, List.range'_succ]
        rfl
      · show (get_nonces n (get_nonce s).2).2.current_nonce = _
        rw [h2]
        show s.current_nonce + 1 + n = s.current_nonce + (n + 1)
        omega
      · show (get_nonces n (get_nonce s).2).2.pending_nonces = _
        rw [h3, List.range'_succ]
        show insert s.current_nonce s.pending_nonces ∪
            (List.range' (s.current_nonce + 1) n).toFinset = _
        rw [List.toFinset_cons, Finset.insert_union, Finset.union_insert]

/-- Strictly increasing issue order: `range'` with step 1 is `<`-chained. -/
theorem chain_lt_range' : ∀ (n s : ℕ), List.Chain' (· < ·) (List.range' s n)
  | 0, _ => List.chain'_nil
  | n + 1, s => by
      rw [List.range'_succ]
      cases n with
      | zero => simp
      | succ m =>
          rw [List.range'_succ]
          exact List.Chain'.cons (by omega)
            (by rw [← List.range'_succ]; exact chain_lt_range' (m + 1) (s + 1))

/-- C2: starting from internal nonce `K`, `N` consecutive completed
`get_nonce` calls with no intervening resync issue exactly
`K, K+1, …, K+N-1` — pairwise distinct and strictly increasing — leave the
counter at `K+N`, and add exactly the issued nonces to the pending set
(the pending set afterwards is the prior pending set plus the issued
nonces); moreover `confirm_nonce` only erases its nonce from the pending
set and never moves the counter, and a single allocation never decreases
the counter. -/
theorem nonce_allocation_sequence (N K : ℕ) (s : NonceState)
    (hK : s.current_nonce = K) :
    (get_nonces N s).1 = List.range' K N ∧
    (get_nonces N s).1.Nodup ∧
    List.Chain' (· < ·) (get_nonces N s).1 ∧
    (get_nonces N s).2.current_nonce = K + N ∧
    (get_nonces N s).2.pending_nonces =
      s.pending_nonces ∪ (List.range' K N).toFinset ∧
    (∀ n : ℕ, (confirm_nonce n s).current_nonce = s.current_nonce ∧
      (confirm_nonce n s).pending_nonces = s.pending_nonces.erase n) ∧
    s.current_nonce ≤ (get_nonce s).2.current_nonce := by
  obtain ⟨h1, h2, h3⟩ := get_nonces_spec N s
  rw [hK] at h1 h2 h3
  refine ⟨h1, ?_, ?_, h2, h3, fun n => ⟨rfl, rfl⟩, Nat.le_succ _⟩
  · rw [h1]; exact List.nodup_range' K N
  · rw [h1]; exact chain_lt_range' N K

/-- Concrete run of C2: three allocations from nonce 5 issue `[5, 6, 7]`,
leave the counter at 8 and the pending set at `{5, 6, 7}`. -/
theorem nonce_allocation_sequence_witness :
    (get_nonces 3 ⟨5, ∅⟩).1 = [5, 6, 7] ∧
    (get_nonces 3 ⟨5, ∅⟩).2.current_nonce = 8 ∧
    (get_nonces 3 ⟨5, ∅⟩).2.pending_nonces = {5, 6, 7} := by
  obtain ⟨h1, -, -, h4, h5, -, -⟩ := nonce_allocation_sequence 3 5 ⟨5, ∅⟩ rfl
  refine ⟨?_, ?_, ?_⟩
  · rw [h1]; rfl
  · rw [h4]
  · rw [h5]; decide

/-! ### Kill switch: trip transition, persistence, rollover frame,
loss monotonicity -/

/-- A kill-switch state with the auto kill switch disabled in config
(`enable_auto_kill_switch = false`), ceiling `$100`, nothing recorded yet. -/
def ksDisabled : KillSwitchState :=
  ⟨100, 5, false, false, none, none, 0, 0, 0⟩

/-- Counterexample to C4 as stated: with `enable_auto_kill_switch = false`,
a `record_loss` call that brings the same-day accumulated loss to `$150`,
at or above the `$100` ceiling, does **not** transition the governor to the
tripped state (`trigger` returns without setting the flag when the auto
kill switch is disabled). -/
theorem kill_switch_trip_counterexample :
    ksDisabled.max_daily_loss_usd ≤ (record_loss 150 0 0 ksDisabled).daily_loss ∧
    (record_loss 150 0 0 ksDisabled).triggered = false := by
  constructor
  · norm_num [record_loss, reset_daily_counters, trigger, ksDisabled]
  · norm_num [record_loss, reset_daily_counters, trigger, ksDisabled]

/-- C4 (amended): provided the auto kill switch is enabled in config, a
`record_loss` call that brings the same-day accumulated loss to at least
the configured daily ceiling transitions the governor to the tripped
state, and likewise a manual `trigger` request; and once `triggered` is
true it remains true under `record_loss`, `record_failed_transaction`, day
rollover and further `trigger` calls — only the explicit manual reset
clears it. -/
theorem kill_switch_trip (s : KillSwitchState) (loss : ℚ) (day : ℕ) (now : ℚ)
    (reason : String) :
    (s.auto_kill_enabled = true →
      (s.max_daily_loss_usd ≤ (record_loss loss day now s).daily_loss →
        (record_loss loss day now s).triggered = true) ∧
      (trigger reason now s).triggered = true) ∧
    (s.triggered = true →
      (record_loss loss day now s).triggered = true ∧
      (record_failed_transaction day s).triggered = true ∧
      (reset_daily_counters day s).triggered = true ∧
      (trigger reason now s).triggered = true) ∧
    (kill_switch_reset s).triggered = false := by
  refine ⟨?_, ?_, rfl⟩
  · intro hen
    constructor
    · intro hge
      simp only [record_loss, reset_daily_counters, trigger] at hge ⊢
      split_ifs at hge ⊢
      all_goals try simp_all
      all_goals exfalso; linarith
    · simp only [trigger]
      split_ifs <;> simp_all
  · intro htr
    refine ⟨?_, ?_, ?_, ?_⟩
    · simp only [record_loss, reset_daily_counters, trigger]
      split_ifs <;> simp_all
    · simp only [record_failed_transaction, reset_daily_counters]
      split_ifs <;> simp_all
    · simp only [reset_daily_counters]
      split_ifs
      all_goals simp_all
    · simp only [trigger]
      split_ifs
      all_goals simp_all

/-- A kill-switch state with the auto kill switch enabled, ceiling `$100`,
nothing recorded yet. -/
def ksEnabled : KillSwitchState :=
  ⟨100, 5, true, false, none, none, 0, 0, 0⟩

/-- Concrete run of C4 (amended): with the auto kill switch enabled, a
`$150` loss reaches the `$100` ceiling and trips the governor. -/
theorem kill_switch_trip_witness :
    ksEnabled.max_daily_loss_usd ≤ (record_loss 150 0 0 ksEnabled).daily_loss ∧
    (record_loss 150 0 0 ksEnabled).triggered = true := by
  have hge : ksEnabled.max_daily_loss_usd ≤
      (record_loss 150 0 0 ksEnabled).daily_loss := by
    norm_num [record_loss, reset_daily_counters, trigger, ksEnabled]
  exact ⟨hge, ((kill_switch_trip ksEnabled 150 0 0 "r").1 rfl).1 hge⟩

/-- C6: when the day index has advanced past the stored last-reset day,
the rollover zeroes exactly `daily_loss` and `failed_tx_count` and stores
the new day, leaving the tripped flag, trip reason, trip time and all
configuration fields unchanged; when the day has not advanced the state is
untouched. -/
theorem day_rollover_frame (s : KillSwitchState) (day : ℕ) :
    (s.last_reset_day < day →
      (reset_daily_counters day s).daily_loss = 0 ∧
      (reset_daily_counters day s).failed_tx_count = 0 ∧
      (reset_daily_counters day s).last_reset_day = day ∧
      (reset_daily_counters day s).triggered = s.triggered ∧
      (reset_daily_counters day s).trigger_reason = s.trigger_reason ∧
      (reset_daily_counters day s).trigger_time = s.trigger_time ∧
      (reset_daily_counters day s).max_daily_loss_usd = s.max_daily_loss_usd ∧
      (reset_daily_counters day s).max_failed_tx = s.max_failed_tx ∧
      (reset_daily_counters day s).auto_kill_enabled = s.auto_kill_enabled) ∧
    (day ≤ s.last_reset_day → reset_daily_counters day s = s) := by
  constructor
  · intro h
    simp [reset_daily_counters, h]
  · intro h
    simp [reset_daily_counters, Nat.not_lt.mpr h]

/-- A tripped kill-switch state from the prior day with nonzero daily
counters. -/
def ksPrior : KillSwitchState :=
  ⟨100, 5, true, true, some "daily loss", some 7, 30, 2, 0⟩

/-- Concrete run of C6: rolling from day 0 to day 1 zeroes the counters
and keeps the prior day's tripped state and trip metadata. -/
theorem day_rollover_frame_witness :
    (reset_daily_counters 1 ksPrior).daily_loss = 0 ∧
    (reset_daily_counters 1 ksPrior).failed_tx_count = 0 ∧
    (reset_daily_counters 1 ksPrior).triggered = true ∧
    (reset_daily_counters 1 ksPrior).trigger_reason = some "daily loss" := by
  obtain ⟨h1, h2, -, h4, h5, -, -, -, -⟩ :=
    (day_rollover_frame ksPrior 1).1 (by decide)
  exact ⟨h1, h2, h4, h5⟩

/-- C10: with no day rollover, `record_loss` adds the absolute value of
its argument, so the same-day accumulated loss never decreases — a
negative (profit-like) argument still increases it toward the ceiling. -/
theorem record_loss_abs_monotone (s : KillSwitchState) (loss : ℚ) (day : ℕ)
    (now : ℚ) (hday : day ≤ s.last_reset_day) :
    (record_loss loss day now s).daily_loss = s.daily_loss + |loss| ∧
    s.daily_loss ≤ (record_loss loss day now s).daily_loss := by
  have hno : reset_daily_counters day s = s := by
    simp [reset_daily_counters, Nat.not_lt.mpr hday]
  have h1 : (record_loss loss day now s).daily_loss = s.daily_loss + |loss| := by
    simp only [record_loss, trigger, hno]
    split_ifs <;> simp
  exact ⟨h1, by rw [h1]; linarith [abs_nonneg loss]⟩

/-- An untripped state carrying `$10` of same-day loss. -/
def ksLoss : KillSwitchState :=
  ⟨1000, 5, true, false, none, none, 10, 0, 0⟩

/-- Concrete run of C10: recording a loss of `-30` (a profit-like value)
still raises the same-day accumulated loss from `$10` to `$40`. -/
theorem record_loss_abs_monotone_witness :
    (record_loss (-30) 0 0 ksLoss).daily_loss = 40 ∧
    ksLoss.daily_loss ≤ (record_loss (-30) 0 0 ksLoss).daily_loss := by
  obtain ⟨h1, h2⟩ := record_loss_abs_monotone ksLoss (-30) 0 0 (by decide)
  refine ⟨?_, h2⟩
  rw [h1]
  norm_num [ksLoss]

/-! ### RPC manager: rate-limited failover and exhaustion -/

/-- In a duplicate-free list, `findIdx?` of the membership test finds
exactly the position of the element. -/
theorem findIdx?_beq_of_nodup :
    ∀ (l : List String) (t : String) (i j : ℕ), l.Nodup →
      ∀ (hi : i < l.length), l.get ⟨i, hi⟩ = t →
      l.findIdx? (· == t) j = some (i + j)
  | [], _, i, _, _, hi, _ => absurd hi (by simp)
  | x :: xs, t, 0, j, _hnd, hi, ht => by
      simp only [List.get] at ht
      rw [List.findIdx?_cons, if_pos (by simp [ht])]
      simp
  | x :: xs, t, i + 1, j, hnd, hi, ht => by
      simp only [List.get] at ht
      have hts : t ∈ xs := ht ▸ List.get_mem xs i _
      have hx : ¬(x == t) = true := by
        simp only [beq_iff_eq]
        intro hxt
        exact (List.nodup_cons.mp hnd).1 (hxt ▸ hts)
      rw [List.findIdx?_cons, if_neg hx,
        findIdx?_beq_of_nodup xs t i (j + 1) (List.nodup_cons.mp hnd).2
          (by simpa using hi) ht]
      congr 1
      omega

/-- C3: when the provider's answer on tier `tn` — sitting at position `i`
of the duplicate-free fallback sequence — is classified rate-limited,
`make_call` advances to the tier immediately after `tn`: if a next tier
exists, the remainder of the call runs with both the request tier and the
current-tier pointer set to it; if `tn` is the last tier of the sequence,
the call returns the fatal endpoints-exhausted outcome at once instead of
retrying further. -/
theorem make_call_failover (seq : List String) (outcome : String → ℕ → CallOutcome)
    (r a i : ℕ) (tn ct : String) (hnd : seq.Nodup) (hi : i < seq.length)
    (htn : seq.get ⟨i, hi⟩ = tn)
    (hout : outcome tn a = CallOutcome.rateLimited) :
    (∀ hnext : i + 1 < seq.length,
      get_next_tier seq tn = some (seq.get ⟨i + 1, hnext⟩) ∧
      make_call_go seq outcome (r + 1) a tn ct =
        make_call_go seq outcome r (a + 1) (seq.get ⟨i + 1, hnext⟩)
          (seq.get ⟨i + 1, hnext⟩)) ∧
    (i + 1 = seq.length →
      get_next_tier seq tn = none ∧
      make_call_go seq outcome (r + 1) a tn ct = (MakeCallResult.exhausted, ct)) := by
  have hidx : seq.findIdx? (· == tn) = some i := by
    simpa using findIdx?_beq_of_nodup seq tn i 0 hnd hi htn
  constructor
  · intro hnext
    have hgn : get_next_tier seq tn = some (seq.get ⟨i + 1, hnext⟩) := by
      rw [get_next_tier, hidx]
      simp only [if_pos hnext]
      exact List.getElem?_eq_getElem hnext
    refine ⟨hgn, ?_⟩
    simp only [make_call_go, hout, hgn]
  · intro hlast
    have hgn : get_next_tier seq tn = none := by
      rw [get_next_tier, hidx]
      simp [hlast]
    refine ⟨hgn, ?_⟩
    simp only [make_call_go, hout, hgn]

/-- The two-tier fallback sequence used in the concrete C3 run. -/
def seqW : List String := ["tier_1", "tier_2"]

/-- A provider that always answers rate-limited. -/
def outW : String → ℕ → CallOutcome := fun _ _ => CallOutcome.rateLimited

/-- Concrete run of C3: a rate-limited failure on `tier_1` makes the call
continue on `tier_2` with the pointer moved there, a rate-limited failure
on the last tier `tier_2` raises endpoints-exhausted, and the full
`make_call` on this provider ends exhausted with the pointer on `tier_2`. -/
theorem make_call_failover_witness :
    make_call_go seqW outW 3 0 "tier_1" "tier_1" =
      make_call_go seqW outW 2 1 "tier_2" "tier_2" ∧
    make_call_go seqW outW 2 1 "tier_2" "tier_2" =
      (MakeCallResult.exhausted, "tier_2") ∧
    make_call seqW outW none "tier_1" = (MakeCallResult.exhausted, "tier_2") := by
  have h1 := (make_call_failover seqW outW 2 0 0 "tier_1" "tier_1"
    (by decide) (by decide) rfl rfl).1 (by decide)
  have h2 := (make_call_failover seqW outW 1 1 1 "tier_2" "tier_2"
    (by decide) (by decide) rfl rfl).2 rfl
  exact ⟨h1.2, h2.2, h1.2.trans h2.2⟩

/-! ### Multicall: order-preserving chunked aggregation -/

/-- Concatenating the chunks gives back the original call list. -/
theorem chunksOf_flatten (n : ℕ) : ∀ (l : List MCall), (chunksOf n l).flatten = l
  | [] => by rw [chunksOf]; rfl
  | x :: xs => by
      rw [chunksOf, List.flatten_cons, chunksOf_flatten n (xs.drop (n - 1))]
      rw [List.cons_append, List.take_append_drop]
termination_by l => l.length
decreasing_by simp [List.length_drop]; omega

/-- C7: for a positive chunk size, `aggregate` returns exactly the
per-call decoded responses in input order — the result has the same
length and order as the input, each entry depends only on its own call's
response (so one failing entry yields `none` at its own index and leaves
the others untouched), and the chunking is invisible. -/
theorem aggregate_ordered_isolated (n : ℕ) (_hn : 1 ≤ n)
    (resp : MCall → MCallResult) (calls : List MCall) :
    aggregate n resp calls = calls.map (fun c => decode_result (resp c)) ∧
    (aggregate n resp calls).length = calls.length ∧
    ∀ (i : ℕ) (hi : i < calls.length),
      (aggregate n resp calls)[i]? =
        some (decode_result (resp (calls.get ⟨i, hi⟩))) := by
  have hmap : aggregate n resp calls =
      calls.map (fun c => decode_result (resp c)) := by
    rw [aggregate]
    split_ifs with hc
    · rw [hc]; rfl
    · show (List.map (List.map (fun c => decode_result (resp c)))
          (chunksOf n calls)).flatten = _
      rw [← List.map_flatten, chunksOf_flatten]
  refine ⟨hmap, by rw [hmap, List.length_map], ?_⟩
  intro i hi
  rw [hmap, List.getElem?_map, List.getElem?_eq_getElem hi]
  rfl

/-- The five-call batch for the concrete C7 run; the chain responds
successfully to every target except `"t2"`, which fails. -/
def respW : MCall → MCallResult := fun c =>
  if c.target = "t2" then ⟨false, []⟩ else ⟨true, c.call_data⟩

/-- The five calls of the concrete C7 run. -/
def callsW : List MCall :=
  [⟨"t0", [0]⟩, ⟨"t1", [1]⟩, ⟨"t2", [2]⟩, ⟨"t3", [3]⟩, ⟨"t4", [4]⟩]

/-- Concrete run of C7: five calls with chunk size 2 (so the batch spans
three round-trips) and index 2 engineered to fail come back as five
results in input order with only index 2 marked failed. -/
theorem aggregate_ordered_isolated_witness :
    aggregate 2 respW callsW =
      [some [0], some [1], none, some [3], some [4]] ∧
    (aggregate 2 respW callsW).length = 5 := by
  obtain ⟨h1, h2, -⟩ := aggregate_ordered_isolated 2 (by decide) respW callsW
  constructor
  · rw [h1]; rfl
  · rw [h2]; rfl

/-! ### Tip optimizer: clamp bounds -/

/-- The tip configuration of the concrete C8 runs: `min_tip = 25` gwei,
`max_tip = 100` gwei. -/
def tipCfgW : TipConfig := ⟨25, 100⟩

/-- A tiny opportunity (`$0.0001` expected profit) whose 10%-of-profit cap
(`12.5` gwei) lies below `min_tip`. -/
def tipOppW : TipOpportunity := ⟨1/10000, "direct_arbitrage", none⟩

/-- Counterexample to C8 as stated: the profit cap is applied **after**
the `[min_tip, max_tip]` clamp, so for an opportunity whose
10%-of-profit cap (`12.5` gwei) is below `min_tip = 25` gwei the returned
tip is `12.5` gwei (`12500000000` wei), strictly below the `min_tip`
lower bound — the three bounds do not all hold simultaneously. -/
theorem tip_min_bound_counterexample :
    calculate_optimal_tip tipCfgW 0 0 tipOppW = 12500000000 ∧
    ((calculate_optimal_tip tipCfgW 0 0 tipOppW : ℚ) <
      tipCfgW.min_tip_gwei * 1000000000) := by
  have hrule : rule_tip_gwei tipCfgW 0 0 tipOppW = 25 := by
    norm_num [rule_tip_gwei, tipCfgW, tipOppW]
    decide
  have hcap : max_acceptable_tip_gwei tipOppW = 25 / 2 := by
    norm_num [max_acceptable_tip_gwei, tipOppW]
  have hgwei : calculate_optimal_tip_gwei tipCfgW 0 0 tipOppW = 25 / 2 := by
    rw [calculate_optimal_tip_gwei, hrule, hcap]
    norm_num [tipCfgW]
  have h : calculate_optimal_tip tipCfgW 0 0 tipOppW = 12500000000 := by
    rw [calculate_optimal_tip, hgwei]
    norm_num [pyInt]
  refine ⟨h, ?_⟩
  rw [h]
  norm_num [tipCfgW]

/-- C8 (amended): whenever `min_tip ≤ max_tip`, the gwei value computed by
`calculate_optimal_tip` is at most `max_tip`, at most the 10%-of-profit
cap, and at least the **minimum** of `min_tip` and that cap (hence at
least `min_tip` exactly when the cap is at least `min_tip`); the returned
wei value is this gwei value converted by Python's `int(… * 1e9)`. -/
theorem tip_bounds (cfg : TipConfig) (history_len : ℕ) (ml_tip : ℚ)
    (opp : TipOpportunity) (h : cfg.min_tip_gwei ≤ cfg.max_tip_gwei) :
    calculate_optimal_tip_gwei cfg history_len ml_tip opp ≤ cfg.max_tip_gwei ∧
    calculate_optimal_tip_gwei cfg history_len ml_tip opp ≤
      max_acceptable_tip_gwei opp ∧
    min cfg.min_tip_gwei (max_acceptable_tip_gwei opp) ≤
      calculate_optimal_tip_gwei cfg history_len ml_tip opp ∧
    (cfg.min_tip_gwei ≤ max_acceptable_tip_gwei opp →
      cfg.min_tip_gwei ≤ calculate_optimal_tip_gwei cfg history_len ml_tip opp) ∧
    calculate_optimal_tip cfg history_len ml_tip opp =
      pyInt (calculate_optimal_tip_gwei cfg history_len ml_tip opp *
        1000000000) := by
  rw [calculate_optimal_tip_gwei]
  refine ⟨?_, min_le_right _ _, ?_, ?_, rfl⟩
  · exact le_trans (min_le_left _ _) (max_le h (min_le_right _ _))
  · exact min_le_min (le_max_left _ _) le_rfl
  · intro hcap
    have hmin : min cfg.min_tip_gwei (max_acceptable_tip_gwei opp) =
        cfg.min_tip_gwei := min_eq_left hcap
    calc cfg.min_tip_gwei
        = min cfg.min_tip_gwei (max_acceptable_tip_gwei opp) := hmin.symm
      _ ≤ _ := min_le_min (le_max_left _ _) le_rfl

/-- A profitable opportunity (`$30` expected profit) whose cap (`3750000`
gwei) is far above `min_tip`, for the concrete C8 run. -/
def tipOppW2 : TipOpportunity := ⟨30, "direct_arbitrage", none⟩

/-- Concrete run of C8 (amended): with `min_tip = 25 ≤ max_tip = 100` and
a `$30`-profit opportunity, the computed tip is `25` gwei, within all
three bounds. -/
theorem tip_bounds_witness :
    calculate_optimal_tip_gwei tipCfgW 0 0 tipOppW2 ≤ tipCfgW.max_tip_gwei ∧
    calculate_optimal_tip_gwei tipCfgW 0 0 tipOppW2 ≤
      max_acceptable_tip_gwei tipOppW2 ∧
    tipCfgW.min_tip_gwei ≤ calculate_optimal_tip_gwei tipCfgW 0 0 tipOppW2 ∧
    calculate_optimal_tip tipCfgW 0 0 tipOppW2 = 25000000000 := by
  obtain ⟨h1, h2, -, h4, -⟩ := tip_bounds tipCfgW 0 0 tipOppW2 (by norm_num [tipCfgW])
  have hrule : rule_tip_gwei tipCfgW 0 0 tipOppW2 = 25 := by
    norm_num [rule_tip_gwei, tipCfgW, tipOppW2]
    decide
  have hgwei : calculate_optimal_tip_gwei tipCfgW 0 0 tipOppW2 = 25 := by
    rw [calculate_optimal_tip_gwei, hrule]
    norm_num [tipCfgW, tipOppW2, max_acceptable_tip_gwei]
  refine ⟨h1, h2, h4 ?_, ?_⟩
  · norm_num [tipCfgW, tipOppW2, max_acceptable_tip_gwei]
  · rw [calculate_optimal_tip, hgwei]
    norm_num [pyInt]

/-! ### Data cache: TTL read-through -/

/-- C9: a value stored with time-to-live `ttl` at time `t0` is returned by
a `get` whose age `t1 - t0` is within `ttl`; once the age strictly exceeds
`ttl`, `get` treats the entry as absent, removes it lazily, and any
subsequent `get` (at any time `t2`) also finds nothing. -/
theorem cache_ttl_read_through (store : CacheStore) (key : String) (v : ℤ)
    (ttl : ℕ) (t0 t1 t2 : ℚ) :
    (t1 - t0 ≤ (ttl : ℚ) →
      (cache_get (cache_set store key v ttl t0) key t1).1 = some v) ∧
    ((ttl : ℚ) < t1 - t0 →
      (cache_get (cache_set store key v ttl t0) key t1).1 = none ∧
      (cache_get (cache_set store key v ttl t0) key t1).2 key = none ∧
      (cache_get ((cache_get (cache_set store key v ttl t0) key t1).2)
        key t2).1 = none) := by
  have hset : (cache_set store key v ttl t0) key = some ⟨v, t0, ttl⟩ := by
    simp [cache_set]
  have hbody : ∀ t : ℚ, cache_get (cache_set store key v ttl t0) key t =
      if (ttl : ℚ) < t - t0 then
        (none, cache_delete (cache_set store key v ttl t0) key)
      else (some v, cache_set store key v ttl t0) := by
    intro t
    rw [cache_get, hset]
  have hdel : (cache_delete (cache_set store key v ttl t0) key) key = none := by
    simp [cache_delete]
  constructor
  · intro hfresh
    rw [hbody, if_neg (not_lt.mpr (by linarith))]
  · intro hstale
    rw [hbody, if_pos (by linarith)]
    refine ⟨rfl, hdel, ?_⟩
    show (cache_get (cache_delete (cache_set store key v ttl t0) key) key t2).1 =
      none
    rw [cache_get, hdel]

/-- Concrete run of C9: a value stored with `ttl = 1` at time 0 is
retrievable at time `0.5` and absent at time 2 — and still absent on a
re-read at time 3 — with no explicit eviction call. -/
theorem cache_ttl_read_through_witness :
    (cache_get (cache_set (fun _ => none) "k" 42 1 0) "k" (1/2)).1 = some 42 ∧
    (cache_get (cache_set (fun _ => none) "k" 42 1 0) "k" 2).1 = none ∧
    (cache_get ((cache_get (cache_set (fun _ => none) "k" 42 1 0) "k" 2).2)
      "k" 3).1 = none := by
  have h1 := (cache_ttl_read_through (fun _ => none) "k" 42 1 0 (1/2) 3).1
    (by norm_num)
  have h2 := (cache_ttl_read_through (fun _ => none) "k" 42 1 0 2 3).2
    (by norm_num)
  exact ⟨h1, h2.1, h2.2.2⟩
